import Mathlib

/-!
Verification development for the QA automation pipeline
(orchestrator + test-case generator + coder + code-reviewer agents).

The Python sources are shallowly embedded as executable Lean functions.
External effects (the XML parser, the generative backend, subprocess
execution, the advisory critique call) are modelled as oracles supplied
through an environment record; filesystem contents are threaded
explicitly as `Option String` values (presence + content).
-/

/-! ## Placeholder sanitization (CoderAgentShell._sanitize_code)

The Python source compiles the regex `=\s*/\*.*?\*/;` with `re.DOTALL`
and substitutes every non-overlapping occurrence (leftmost first) with
the literal replacement text.  Strings are modelled as `List Char`; the
matcher below is the anchored form of that regex:
an `=`, then a maximal run of whitespace (Unicode semantics, since the
pattern is a str pattern without the ASCII flag; backtracking cannot
help since `/` is not whitespace), then the opener `/*`, then a lazy
scan to the first occurrence of the closer `*/;`. -/

/-- The whitespace class matched by the regex escape for whitespace in
a Python 3 str pattern compiled without the ASCII flag: Unicode
semantics.  The codepoints are exactly those the CPython regex engine
accepts for that escape: the ASCII whitespace characters 09-0D and 20,
the information separators 1C-1F, NEL 85, no-break space A0, Ogham
space mark 1680, the spaces 2000-200A, line and paragraph separators
2028 and 2029, narrow no-break space 202F, medium mathematical space
205F, and ideographic space 3000. -/
def isPySpace (c : Char) : Bool :=
  let n := c.toNat
  (decide (0x09 ≤ n) && decide (n ≤ 0x0D)) ||
  (decide (0x1C ≤ n) && decide (n ≤ 0x1F)) ||
  n == 0x20 || n == 0x85 || n == 0xA0 || n == 0x1680 ||
  (decide (0x2000 ≤ n) && decide (n ≤ 0x200A)) ||
  n == 0x2028 || n == 0x2029 || n == 0x202F || n == 0x205F || n == 0x3000

/-- Does the list begin with the closer `*/;` of the placeholder pattern? -/
def startsClose : List Char → Bool
  | a :: b :: c :: _ => a == '*' && b == '/' && c == ';'
  | _ => false

/-- Does the list begin with the opener `/*` of the placeholder pattern? -/
def startsOpen : List Char → Bool
  | a :: b :: _ => a == '/' && b == '*'
  | _ => false

/-- Lazy scan for the first occurrence of `*/;`; returns the remainder
after it (the lazy `.*?` of the regex together with its closer). -/
def findClose : List Char → Option (List Char)
  | [] => none
  | c :: r => if startsClose (c :: r) then some (r.drop 2) else findClose r

/-- Anchored match of the placeholder regex at the head of the list.
On success returns the text remaining after the matched region. -/
def tryMatch : List Char → Option (List Char)
  | [] => none
  | c :: r =>
    if c == '=' then
      if startsOpen (r.dropWhile isPySpace) then
        findClose ((r.dropWhile isPySpace).drop 2)
      else none
    else none

/-- The replacement text of the substitution in the source. -/
def repl : List Char :=
  ['=', ' ', '\'', '\'', ';', '/', '/', ' ', 'T', 'O', 'D', 'O', ':', ' ',
   'p', 'r', 'o', 'v', 'i', 'd', 'e', ' ', 'v', 'a', 'l', 'u', 'e', ';']

/-- Fuel-indexed global substitution: at each position try the anchored
match; on success emit the replacement and continue after the match
(non-overlapping, leftmost first), otherwise keep the character and
advance by one.  A fuel of the list length suffices because every match
consumes at least one character. -/
def subAux : Nat → List Char → List Char
  | 0, l => l
  | _ + 1, [] => []
  | f + 1, c :: r =>
    match tryMatch (c :: r) with
    | some rem => repl ++ subAux f rem
    | none => c :: subAux f r

/-- Global substitution of the placeholder pattern, as performed by the
regex substitution in the source. -/
def subPlaceholder (l : List Char) : List Char :=
  subAux l.length l

/-- CoderAgentShell._sanitize_code: replace every occurrence of the
placeholder pattern by the stub assignment text. -/
def sanitize_code (s : String) : String :=
  String.mk (subPlaceholder s.data)

/-- The concrete placeholder occurrence named by the specification
scenario: the text of the assignment-to-block-comment shape. -/
def occPlaceholder : List Char :=
  ['=', ' ', '/', '*', ' ', 'f', 'i', 'l', 'l', ' ', 'i', 'n', ' ',
   'l', 'a', 't', 'e', 'r', ' ', '*', '/', ';']

/-- No match of the placeholder pattern starts at any position of the
list (the substitution leaves such a list untouched). -/
def Clean (L : List Char) : Prop :=
  ∀ l₁ l₂ : List Char, L = l₁ ++ l₂ → tryMatch l₂ = none

/-! ## CoderAgentShell.improve_code -/

/-- The revision prompt assembled by improve_code: fixed instruction
text, then the feedback, then the previous code, both verbatim. -/
def improvePrompt (feedback prev_code : String) : String :=
  "You are an expert QA automation engineer. Improve the following Playwright test code (JavaScript) so that it "
    ++ "addresses the feedback below and passes all tests. Return *only* the updated JavaScript code "
    ++ "— no markdown or commentary.\n\n"
    ++ "FEEDBACK:\n" ++ feedback ++ "\n\nPREVIOUS_CODE:\n" ++ prev_code

/-- Outcome of one improve_code invocation: the prompt sent to the
backend and the content written to the canonical artifact path. -/
structure ImproveResult where
  prompt : String
  written : String
deriving DecidableEq

/-- Reading a file: raises FileNotFoundError when the file is absent. -/
def readText : Option String → Except String String
  | some s => .ok s
  | none => .error "FileNotFoundError"

/-- CoderAgentShell.improve_code: read the previous artifact if it
exists (empty string otherwise), build the revision prompt, sanitize the
backend output and write it as a complete replacement to the canonical
path.  The backend response is supplied as the oracle `llmOut`. -/
def improve_code (fsSpec : Option String) (feedback llmOut : String) :
    Except String ImproveResult := do
  let prev_code ← if fsSpec.isSome then readText fsSpec else pure ""
  let prompt := improvePrompt feedback prev_code
  let improved := sanitize_code llmOut
  pure ⟨prompt, improved⟩

/-! ## CodeReviewerAgent -/

/-- Result of one subprocess invocation of an execution backend.
check_output catches only CalledProcessError; a spawn failure
(FileNotFoundError when the executable is missing) is a distinct,
uncaught exception. -/
inductive AdapterOutcome where
  | exitZero (output : String)
  | exitNonzero (output : String)
  | spawnFailure (msg : String)
deriving DecidableEq

/-- The argument record of the check_output call in _run_playwright:
command list, stderr redirected to stdout, working directory, and the
timeout keyword (not passed in the source, hence `none`). -/
structure SubprocessCall where
  args : List String
  stderrToStdout : Bool
  cwd : Option String
  timeout : Option Nat
deriving DecidableEq

/-- The subprocess invocation made by CodeReviewerAgent._run_playwright. -/
def playwrightCall (testFilePath workingDir : String) : SubprocessCall :=
  { args := ["npx", "--yes", "playwright", "test", testFilePath, "--reporter", "line"]
  , stderrToStdout := true
  , cwd := some workingDir
  , timeout := none }

/-- The subprocess invocation made by CodeReviewerAgent._run_pytest. -/
def pytestCall (pythonExe workingDir : String) : SubprocessCall :=
  { args := [pythonExe, "-m", "pytest", workingDir]
  , stderrToStdout := true
  , cwd := none
  , timeout := none }

/-- CodeReviewerAgent._run_playwright: a zero exit yields the fixed
success message, CalledProcessError is caught and yields the captured
output, and a spawn failure propagates as an exception. -/
def run_playwright : AdapterOutcome → Except String (Bool × String)
  | .exitZero _ => .ok (true, "All Playwright tests passed successfully.")
  | .exitNonzero out => .ok (false, out)
  | .spawnFailure msg => .error msg

/-- CodeReviewerAgent._run_pytest: same structure as the Playwright
adapter with the Python success message. -/
def run_pytest : AdapterOutcome → Except String (Bool × String)
  | .exitZero _ => .ok (true, "All Python tests passed successfully.")
  | .exitNonzero out => .ok (false, out)
  | .spawnFailure msg => .error msg

/-- CodeReviewerAgent.review_code: dispatch on the artifact suffix, run
the matching adapter, and only on a passing run attempt the advisory
static review, downgrading any exception it raises to the annotated
text.  The advisory oracle is `.ok text` for a normal (already
stripped) response and `.error reason` when the backend call raises. -/
def review_code (suffix : String) (adapter : AdapterOutcome)
    (advisory : Except String String) : Except String (Bool × String) := do
  let pr ← if suffix = ".js" ∨ suffix = ".ts" then run_playwright adapter
           else run_pytest adapter
  let passed := pr.1
  let runtime_feedback := pr.2
  let static_feedback :=
    if passed then
      match advisory with
      | .ok s => s
      | .error exc => "[Static review failed: " ++ exc ++ "]"
    else ""
  let combined_feedback :=
    if static_feedback ≠ "" then
      runtime_feedback ++ "\n\n[Static Review]\n" ++ static_feedback
    else runtime_feedback
  pure (passed, combined_feedback)

/-! ## TestCaseGeneratorAgent and Orchestrator -/

/-- Terminal outcome of a run: the loop broke on a passing review, the
for-else branch reported exhausted cycles, or an uncaught exception
aborted the process. -/
inductive Outcome where
  | passed
  | exhausted
  | fatal (err : String)
deriving DecidableEq

/-- Oracles for one run: the XML parse result, the decoded JSON content
of the extraction backend response (`.error ()` models a JSON decode
failure, which the agent swallows), any stale content already present
at the case-file path, and per-call synthesis / adapter / advisory
responses. -/
structure Env where
  parse : Except String String
  llmCases : Except Unit String
  staleJson : Option String
  synth : Nat → String
  adapter : Nat → AdapterOutcome
  advisory : Nat → Except String String

/-- Observable result of a run: terminal outcome, number of synthesis
backend invocations (initial generation plus revisions), and number of
review invocations. -/
structure RunReport where
  outcome : Outcome
  synthCalls : Nat
  reviewCalls : Nat
deriving DecidableEq

/-- TestCaseGeneratorAgent.run: parse the XML (propagating a parse
error), then decode the backend response; on a decode failure the agent
prints and returns without writing, leaving any stale file in place; on
success the decoded cases are written to the case-file path.  Returns
the resulting content of that path. -/
def tcGeneratorRun (env : Env) : Except String (Option String) :=
  match env.parse with
  | .error e => .error e
  | .ok _ =>
    match env.llmCases with
    | .error _ => .ok env.staleJson
    | .ok s => .ok (some s)

/-- CoderAgentShell.run: load the case file (raising FileNotFoundError
before any backend call when it is absent), then generate, sanitize and
save the first artifact. -/
def coderRun (jsonFile : Option String) (llmOut : String) : Except String String :=
  match jsonFile with
  | none => .error "FileNotFoundError"
  | some _ => .ok (sanitize_code llmOut)

/-- The review loop of Orchestrator.run: up to `n` further cycles; on a
passing review break with outcome passed; on a failing review hand the
feedback to improve_code (counted as one more synthesis invocation) and
continue; when the cycle budget runs out report exhausted (the for-else
branch); an exception from the reviewer propagates and aborts the run. -/
def reviewLoop (env : Env) : Nat → String → Nat → Nat → RunReport
  | 0, _, s, r => ⟨.exhausted, s, r⟩
  | n + 1, spec, s, r =>
    match review_code ".js" (env.adapter (r + 1)) (env.advisory (r + 1)) with
    | .error e => ⟨.fatal e, s, r + 1⟩
    | .ok (true, _) => ⟨.passed, s, r + 1⟩
    | .ok (false, fb) =>
      match improve_code (some spec) fb (env.synth (s + 1)) with
      | .error e => ⟨.fatal e, s, r + 1⟩
      | .ok res => reviewLoop env n res.written (s + 1) (r + 1)

/-- Orchestrator.run: generate the cases, generate the first artifact,
then run the bounded review loop.  Any uncaught exception yields the
fatal outcome carrying the triggering error. -/
def orchestratorRun (env : Env) (maxCycles : Nat) : RunReport :=
  match tcGeneratorRun env with
  | .error e => ⟨.fatal e, 0, 0⟩
  | .ok jsonFile =>
    match coderRun jsonFile (env.synth 1) with
    | .error e => ⟨.fatal e, 0, 0⟩
    | .ok firstSpec => reviewLoop env maxCycles firstSpec 1 0

/-- Process exit code of the command-line entry point: the script calls
run() and never calls sys.exit, so a normal return exits with code 0
and an uncaught exception makes the interpreter exit with code 1. -/
def exitCode (report : RunReport) : Nat :=
  match report.outcome with
  | .fatal _ => 1
  | _ => 0

/-! ## Concrete environments used by witnesses and counterexamples -/

/-- A run whose reviews all fail with output boom. -/
def envFailAll : Env :=
  { parse := .ok "xml"
  , llmCases := .ok "cases"
  , staleJson := none
  , synth := fun _ => ""
  , adapter := fun _ => .exitNonzero "boom"
  , advisory := fun _ => .ok "" }

/-- A run where the extraction backend response fails to decode but a
stale case file is present; the (single) review passes. -/
def envStale : Env :=
  { parse := .ok "xml"
  , llmCases := .error ()
  , staleJson := some "stale"
  , synth := fun _ => ""
  , adapter := fun _ => .exitZero ""
  , advisory := fun _ => .ok "" }

/-- A run whose XML parse raises. -/
def envParseFail : Env :=
  { parse := .error "ParseError"
  , llmCases := .ok "cases"
  , staleJson := none
  , synth := fun _ => ""
  , adapter := fun _ => .exitZero ""
  , advisory := fun _ => .ok "" }

/-- A run whose first review passes. -/
def envPass : Env :=
  { parse := .ok "xml"
  , llmCases := .ok "cases"
  , staleJson := none
  , synth := fun _ => ""
  , adapter := fun _ => .exitZero ""
  , advisory := fun _ => .ok "" }

/-- A preceding text that itself contains a full placeholder occurrence,
so that it is rewritten as well. -/
def preBad : List Char := ['=', ' ', '/', '*', '*', '/', ';']

/-- A benign preceding text containing no assignment character. -/
def preW : List Char := ['c', 'o', 'n', 's', 't', ' ', 'x', ' ']

/-- A benign following text containing no placeholder match. -/
def postW : List Char := ['\n', 'o', 'k']

/-! ## Lemmas about the anchored matcher -/

theorem tryMatch_cons_ne {c : Char} (l : List Char) (h : ¬ c = '=') :
    tryMatch (c :: l) = none := by
  simp [tryMatch, h]

theorem tryMatch_eq_cons (r : List Char) :
    tryMatch ('=' :: r) =
      if startsOpen (r.dropWhile isPySpace) then
        findClose ((r.dropWhile isPySpace).drop 2)
      else none := by
  simp [tryMatch]

theorem isPySpace_imp_ne {a : Char} (h : isPySpace a = true) : ¬ a = '=' := by
  intro hEq
  subst hEq
  exact absurd h (by decide)

theorem startsOpen_cons_ne {a : Char} (l : List Char) (h : ¬ a = '/') :
    startsOpen (a :: l) = false := by
  cases l with
  | nil => rfl
  | cons b t => simp [startsOpen, h]

theorem startsOpen_cons2_ne {b : Char} (a : Char) (l : List Char) (h : ¬ b = '*') :
    startsOpen (a :: b :: l) = false := by
  simp [startsOpen, h]

theorem startsClose_struct {l : List Char} (h : startsClose l = true) :
    ∃ r, l = '*' :: '/' :: ';' :: r := by
  match l with
  | [] => simp [startsClose] at h
  | [a] => simp [startsClose] at h
  | [a, b] => simp [startsClose] at h
  | a :: b :: c :: t =>
    simp only [startsClose, Bool.and_eq_true, beq_iff_eq] at h
    obtain ⟨⟨ha, hb⟩, hc⟩ := h
    exact ⟨t, by rw [ha, hb, hc]⟩

theorem findClose_some_length :
    ∀ {l rem : List Char}, findClose l = some rem → rem.length + 3 ≤ l.length := by
  intro l
  induction l with
  | nil => intro rem h; simp [findClose] at h
  | cons c r ih =>
    intro rem h
    simp only [findClose] at h
    split at h
    · next hsc =>
      obtain ⟨r', hr'⟩ := startsClose_struct hsc
      cases hr'
      simp only [Option.some.injEq] at h
      subst h
      simp
    · exact Nat.le_succ_of_le (ih h)

theorem findClose_append_none :
    ∀ (v u : List Char), findClose (v ++ u) = none → findClose u = none := by
  intro v
  induction v with
  | nil => intro u h; simpa using h
  | cons a v' ih =>
    intro u h
    simp only [List.cons_append, findClose] at h
    split at h
    · exact absurd h (by simp)
    · exact ih u h

theorem dropWhile_decomp (p : Char → Bool) (l : List Char) :
    ∃ w, w ++ l.dropWhile p = l ∧ ∀ a ∈ w, p a = true := by
  refine ⟨l.takeWhile p, List.takeWhile_append_dropWhile p l, ?_⟩
  intro a ha
  exact List.mem_takeWhile_imp ha

theorem tryMatch_some_findClose {l rem : List Char} (h : tryMatch l = some rem) :
    ∃ v u, l = v ++ u ∧ findClose u = some rem := by
  match l with
  | [] => simp [tryMatch] at h
  | c :: r =>
    simp only [tryMatch] at h
    split at h
    · split at h
      · next hc _ =>
        obtain ⟨w, hw, _⟩ := dropWhile_decomp isPySpace r
        refine ⟨c :: (w ++ (r.dropWhile isPySpace).take 2),
                (r.dropWhile isPySpace).drop 2, ?_, h⟩
        rw [List.cons_append, List.append_assoc, List.take_append_drop, hw]
      · exact absurd h (by simp)
    · exact absurd h (by simp)

theorem tryMatch_some_length {l rem : List Char} (h : tryMatch l = some rem) :
    rem.length < l.length := by
  obtain ⟨v, u, hl, hf⟩ := tryMatch_some_findClose h
  have := findClose_some_length hf
  subst hl
  simp only [List.length_append]
  omega

/-! ## Unfolding lemmas for the substitution -/

theorem subAux_congr :
    ∀ (f g : Nat) (l : List Char), l.length ≤ f → l.length ≤ g → subAux f l = subAux g l := by
  intro f
  induction f with
  | zero =>
    intro g l hf _
    have : l = [] := List.eq_nil_of_length_eq_zero (Nat.le_zero.mp hf)
    subst this
    cases g <;> rfl
  | succ f ih =>
    intro g l hf hg
    cases l with
    | nil => cases g <;> rfl
    | cons c r =>
      cases g with
      | zero => simp at hg
      | succ g =>
        simp only [List.length_cons, Nat.succ_le_succ_iff] at hf hg
        cases h : tryMatch (c :: r) with
        | some rem =>
          have hrem : rem.length ≤ r.length := by
            have := tryMatch_some_length h
            simp only [List.length_cons] at this
            omega
          simp only [subAux, h]
          rw [ih g rem (Nat.le_trans hrem hf) (Nat.le_trans hrem hg)]
        | none =>
          simp only [subAux, h]
          rw [ih g r hf hg]

theorem subPlaceholder_nil : subPlaceholder [] = [] := rfl

theorem subPlaceholder_cons_some {c : Char} {r rem : List Char}
    (h : tryMatch (c :: r) = some rem) :
    subPlaceholder (c :: r) = repl ++ subPlaceholder rem := by
  have hrem : rem.length ≤ r.length := by
    have := tryMatch_some_length h
    simp only [List.length_cons] at this
    omega
  show subAux (r.length + 1) (c :: r) = _
  simp only [subAux, h]
  rw [subAux_congr r.length rem.length rem hrem le_rfl]
  rfl

theorem subPlaceholder_cons_none {c : Char} {r : List Char}
    (h : tryMatch (c :: r) = none) :
    subPlaceholder (c :: r) = c :: subPlaceholder r := by
  show subAux (r.length + 1) (c :: r) = _
  simp only [subAux, h]
  rfl

/-! ## The clean predicate -/

theorem Clean_nil : Clean [] := by
  intro l₁ l₂ h
  have h₂ : l₂ = [] := by
    cases l₁ <;> simp_all
  subst h₂
  rfl

theorem Clean_cons {c : Char} {r : List Char}
    (h1 : tryMatch (c :: r) = none) (h2 : Clean r) : Clean (c :: r) := by
  intro l₁ l₂ h
  cases l₁ with
  | nil =>
    simp only [List.nil_append] at h
    rw [← h]
    exact h1
  | cons y l₁' =>
    simp only [List.cons_append, List.cons.injEq] at h
    exact h2 l₁' l₂ h.2

theorem Clean_head {c : Char} {r : List Char} (h : Clean (c :: r)) :
    tryMatch (c :: r) = none :=
  h [] (c :: r) rfl

theorem Clean_tail {c : Char} {r : List Char} (h : Clean (c :: r)) : Clean r := by
  intro l₁ l₂ hsplit
  exact h (c :: l₁) l₂ (by simp [hsplit])

theorem clean_fix : ∀ {l : List Char}, Clean l → subPlaceholder l = l := by
  intro l
  induction l with
  | nil => intro _; rfl
  | cons c r ih =>
    intro h
    rw [subPlaceholder_cons_none (Clean_head h), ih (Clean_tail h)]

theorem findClose_none_clean {L : List Char} (h : findClose L = none) : Clean L := by
  intro l₁ l₂ hsplit
  cases htm : tryMatch l₂ with
  | none => rfl
  | some rem =>
    exfalso
    obtain ⟨v, u, hu, hf⟩ := tryMatch_some_findClose htm
    have h₂ : findClose l₂ = none := findClose_append_none l₁ l₂ (hsplit ▸ h)
    have hufc : findClose u = none := findClose_append_none v u (hu ▸ h₂)
    rw [hufc] at hf
    exact Option.noConfusion hf

/-! ## No new match can appear in the output of the substitution -/

theorem tryMatch_repl_append (X : List Char) : tryMatch (repl ++ X) = none := rfl

theorem replTail_ne : ∀ x ∈ repl.tail, ¬ x = '=' := by decide

theorem clean_repl_append {X : List Char} (hX : Clean X) : Clean (repl ++ X) := by
  intro l₁ l₂ hsplit
  rcases List.append_eq_append_iff.mp hsplit with ⟨a', _, ha2⟩ | ⟨c', hc1, hc2⟩
  · exact hX a' l₂ ha2
  · cases c' with
    | nil =>
      simp only [List.append_nil] at hc1
      rw [hc2, List.nil_append]
      exact hX [] X rfl
    | cons x w' =>
      cases l₁ with
      | nil =>
        simp only [List.nil_append] at hc1
        have hrw : x :: w' ++ X = repl ++ X := by rw [hc1]
        rw [hc2, hrw]
        exact tryMatch_repl_append X
      | cons y l₁' =>
        have hx : x ∈ repl.tail := by
          have htl : repl.tail = l₁' ++ x :: w' := by rw [hc1]; rfl
          rw [htl]
          exact List.mem_append_right _ (List.mem_cons_self x w')
        rw [hc2, List.cons_append]
        exact tryMatch_cons_ne _ (replTail_ne x hx)

theorem sub_spaces_append :
    ∀ (w X : List Char), (∀ a ∈ w, isPySpace a = true) →
      subPlaceholder (w ++ X) = w ++ subPlaceholder X := by
  intro w
  induction w with
  | nil => intro X _; rfl
  | cons a w' ih =>
    intro X hw
    have ha : isPySpace a = true := hw a (List.mem_cons_self a w')
    have hne : tryMatch (a :: (w' ++ X)) = none :=
      tryMatch_cons_ne _ (isPySpace_imp_ne ha)
    rw [List.cons_append, subPlaceholder_cons_none hne,
        ih X (fun b hb => hw b (List.mem_cons_of_mem a hb))]
    rfl

theorem sub_head_cases (d : Char) (l : List Char) :
    (∃ t, subPlaceholder (d :: l) = d :: t) ∨
    (∃ t, subPlaceholder (d :: l) = '=' :: t) := by
  cases h : tryMatch (d :: l) with
  | none => exact Or.inl ⟨subPlaceholder l, subPlaceholder_cons_none h⟩
  | some rem =>
    refine Or.inr ⟨repl.tail ++ subPlaceholder rem, ?_⟩
    rw [subPlaceholder_cons_some h]
    rfl

theorem dropWhile_all_nil {p : Char → Bool} :
    ∀ {w : List Char}, (∀ a ∈ w, p a = true) → w.dropWhile p = [] := by
  intro w
  induction w with
  | nil => intro _; rfl
  | cons a w' ih =>
    intro hw
    simp only [List.dropWhile, hw a (List.mem_cons_self a w')]
    exact ih fun b hb => hw b (List.mem_cons_of_mem a hb)

theorem dropWhile_append_cons {p : Char → Bool} {h : Char} {t : List Char}
    (hh : p h = false) :
    ∀ {w : List Char}, (∀ a ∈ w, p a = true) →
      (w ++ h :: t).dropWhile p = h :: t := by
  intro w
  induction w with
  | nil => intro _; simp [List.dropWhile, hh]
  | cons a w' ih =>
    intro hw
    rw [List.cons_append]
    simp only [List.dropWhile, hw a (List.mem_cons_self a w')]
    exact ih fun b hb => hw b (List.mem_cons_of_mem a hb)

theorem dropWhile_cons_head_false {p : Char → Bool} :
    ∀ (l : List Char) {d : Char} {r : List Char},
      l.dropWhile p = d :: r → p d = false := by
  intro l
  induction l with
  | nil => intro d r h; simp [List.dropWhile] at h
  | cons a l' ih =>
    intro d r h
    simp only [List.dropWhile] at h
    cases ha : p a with
    | true => rw [ha] at h; exact ih h
    | false =>
      rw [ha] at h
      simp only [List.cons.injEq] at h
      rw [← h.1]
      exact ha

theorem crossing {c : Char} {r : List Char} (h : tryMatch (c :: r) = none) :
    tryMatch (c :: subPlaceholder r) = none := by
  by_cases hc : c = '='
  case neg => exact tryMatch_cons_ne _ hc
  subst hc
  obtain ⟨w, hw, hws⟩ := dropWhile_decomp isPySpace r
  have hsub : subPlaceholder r = w ++ subPlaceholder (r.dropWhile isPySpace) := by
    conv_lhs => rw [← hw]
    exact sub_spaces_append w _ hws
  rw [tryMatch_eq_cons] at h
  rw [hsub, tryMatch_eq_cons]
  cases hr₁ : r.dropWhile isPySpace with
  | nil =>
    rw [subPlaceholder_nil, List.append_nil, dropWhile_all_nil hws]
    rfl
  | cons d r₂ =>
    have hd : isPySpace d = false := dropWhile_cons_head_false r hr₁
    rw [hr₁] at h
    by_cases hdslash : d = '/'
    case neg =>
      rcases sub_head_cases d r₂ with ⟨t, ht⟩ | ⟨t, ht⟩
      · rw [ht, dropWhile_append_cons hd hws, startsOpen_cons_ne t hdslash]
        rfl
      · rw [ht, dropWhile_append_cons (by decide) hws,
            startsOpen_cons_ne t (by decide)]
        rfl
    subst hdslash
    have hsubr₁ : subPlaceholder ('/' :: r₂) = '/' :: subPlaceholder r₂ :=
      subPlaceholder_cons_none (tryMatch_cons_ne _ (by decide))
    cases r₂ with
    | nil =>
      rw [hsubr₁, subPlaceholder_nil, dropWhile_append_cons hd hws]
      rfl
    | cons e r₃ =>
      by_cases he : e = '*'
      case neg =>
        rcases sub_head_cases e r₃ with ⟨t, ht⟩ | ⟨t, ht⟩
        · rw [hsubr₁, ht, dropWhile_append_cons hd hws,
              startsOpen_cons2_ne '/' t he]
          rfl
        · rw [hsubr₁, ht, dropWhile_append_cons hd hws,
              startsOpen_cons2_ne '/' t (by decide)]
          rfl
      subst he
      have hopen : startsOpen ('/' :: '*' :: r₃) = true := rfl
      simp only [hopen, if_true] at h
      have hfc : findClose (('/' :: '*' :: r₃).drop 2) = none := h
      have hfc₃ : findClose r₃ = none := hfc
      have hr₃ : subPlaceholder r₃ = r₃ := clean_fix (findClose_none_clean hfc₃)
      have hsubr₂ : subPlaceholder ('*' :: r₃) = '*' :: r₃ := by
        rw [subPlaceholder_cons_none (tryMatch_cons_ne _ (by decide)), hr₃]
      rw [hsubr₁, hsubr₂, dropWhile_append_cons hd hws]
      simp only [hopen, if_true]
      exact hfc₃

/-! ## Idempotence of the substitution -/

theorem clean_sub_aux :
    ∀ (n : Nat) (l : List Char), l.length ≤ n → Clean (subPlaceholder l) := by
  intro n
  induction n with
  | zero =>
    intro l h
    have : l = [] := List.eq_nil_of_length_eq_zero (Nat.le_zero.mp h)
    subst this
    rw [subPlaceholder_nil]
    exact Clean_nil
  | succ n ih =>
    intro l h
    cases l with
    | nil => rw [subPlaceholder_nil]; exact Clean_nil
    | cons c r =>
      simp only [List.length_cons, Nat.succ_le_succ_iff] at h
      cases htm : tryMatch (c :: r) with
      | none =>
        rw [subPlaceholder_cons_none htm]
        exact Clean_cons (crossing htm) (ih r h)
      | some rem =>
        rw [subPlaceholder_cons_some htm]
        refine clean_repl_append (ih rem ?_)
        have := tryMatch_some_length htm
        simp only [List.length_cons] at this
        omega

theorem clean_subPlaceholder (l : List Char) : Clean (subPlaceholder l) :=
  clean_sub_aux l.length l le_rfl

theorem sub_idem (l : List Char) :
    subPlaceholder (subPlaceholder l) = subPlaceholder l :=
  clean_fix (clean_subPlaceholder l)

/-! ## Behaviour of the substitution around one placeholder occurrence -/

theorem sub_append_of_nomatch :
    ∀ (pre X : List Char),
      (∀ i, i < pre.length → tryMatch (pre.drop i ++ X) = none) →
      subPlaceholder (pre ++ X) = pre ++ subPlaceholder X := by
  intro pre
  induction pre with
  | nil => intro X _; rfl
  | cons c pre' ih =>
    intro X h
    have h0 : tryMatch (c :: (pre' ++ X)) = none := by
      have := h 0 (by simp)
      simpa using this
    rw [List.cons_append, subPlaceholder_cons_none h0, ih X ?_]
    · rfl
    · intro i hi
      have := h (i + 1) (by simpa using Nat.succ_lt_succ hi)
      simpa using this

theorem tryMatch_occ_append (X : List Char) :
    tryMatch (occPlaceholder ++ X) = some X := rfl

theorem sub_occ_append (X : List Char) :
    subPlaceholder (occPlaceholder ++ X) = repl ++ subPlaceholder X :=
  subPlaceholder_cons_some (tryMatch_occ_append X)

theorem clean_of_all_drops {post : List Char}
    (h : ∀ i, i < post.length → tryMatch (post.drop i) = none) : Clean post := by
  intro l₁ l₂ hsplit
  by_cases hnil : l₂ = []
  · subst hnil; rfl
  · have hlen : l₁.length < post.length := by
      rw [hsplit, List.length_append]
      cases l₂ with
      | nil => exact absurd rfl hnil
      | cons a t => simp
    have hdrop : post.drop l₁.length = l₂ := by
      rw [hsplit]
      exact List.drop_left l₁ l₂
    rw [← hdrop]
    exact h l₁.length hlen

/-! ## Reviewer helper lemmas -/

theorem staticNotice_ne (reason : String) :
    ("[Static review failed: " ++ reason ++ "]") ≠ "" := by
  intro h
  have h2 := congrArg String.length h
  rw [String.length_append, String.length_append] at h2
  have hb : ("[Static review failed: " : String).length = 23 := rfl
  have he : ("]" : String).length = 1 := rfl
  have h0 : ("" : String).length = 0 := rfl
  rw [hb, he, h0] at h2
  omega

theorem reviewCode_fst (suffix : String) (a : AdapterOutcome)
    (adv : Except String String) :
    (review_code suffix a adv).map Prod.fst =
      (match a with
       | .exitZero _ => .ok true
       | .exitNonzero _ => .ok false
       | .spawnFailure m => .error m) := by
  by_cases hs : suffix = ".js" ∨ suffix = ".ts"
  · unfold review_code
    rw [if_pos hs]
    cases a <;> rfl
  · unfold review_code
    rw [if_neg hs]
    cases a <;> rfl

/-! ## Bounds on the review loop -/

theorem improve_code_some (p f o : String) :
    improve_code (some p) f o = .ok ⟨improvePrompt f p, sanitize_code o⟩ := rfl

theorem reviewLoop_reviewCalls_le (env : Env) :
    ∀ (n : Nat) (spec : String) (s r : Nat),
      (reviewLoop env n spec s r).reviewCalls ≤ r + n := by
  intro n
  induction n with
  | zero => intro spec s r; simp [reviewLoop]
  | succ n ih =>
    intro spec s r
    simp only [reviewLoop]
    cases hrc : review_code ".js" (env.adapter (r + 1)) (env.advisory (r + 1)) with
    | error e => simp
    | ok pr =>
      obtain ⟨passed, fb⟩ := pr
      cases passed with
      | true => simp
      | false =>
        dsimp only
        rw [improve_code_some]
        dsimp only
        have := ih (sanitize_code (env.synth (s + 1))) (s + 1) (r + 1)
        omega

theorem reviewLoop_synthCalls_le (env : Env) :
    ∀ (n : Nat) (spec : String) (s r : Nat),
      (reviewLoop env n spec s r).synthCalls ≤ s + n := by
  intro n
  induction n with
  | zero => intro spec s r; simp [reviewLoop]
  | succ n ih =>
    intro spec s r
    simp only [reviewLoop]
    cases hrc : review_code ".js" (env.adapter (r + 1)) (env.advisory (r + 1)) with
    | error e => simp
    | ok pr =>
      obtain ⟨passed, fb⟩ := pr
      cases passed with
      | true => simp
      | false =>
        dsimp only
        rw [improve_code_some]
        dsimp only
        have := ih (sanitize_code (env.synth (s + 1))) (s + 1) (r + 1)
        omega

/-! ## Claim theorems -/

/-- C1 (corrected): for a retry budget of at least one cycle, the total
number of synthesis invocations (the initial generation plus one
revision per failed review, including a final revision after the last
permitted review fails) never exceeds maxCycles + 1.  The claimed bound
of maxCycles fails: see the counterexample. -/
theorem C1_thm (env : Env) (k : Nat) (hk : 1 ≤ k) :
    (orchestratorRun env k).synthCalls ≤ k + 1 := by
  unfold orchestratorRun
  cases htc : tcGeneratorRun env with
  | error e => simp
  | ok j =>
    cases hcr : coderRun j (env.synth 1) with
    | error e => dsimp only; rw [hcr]; simp
    | ok spec =>
      dsimp only
      rw [hcr]
      dsimp only
      have := reviewLoop_synthCalls_le env k spec 1 0
      omega

/-- C1 counterexample: with maxCycles = 1 and a failing review, the run
terminates as Exhausted but only after a second synthesis invocation,
so the synthesis count exceeds maxCycles. -/
theorem C1_cex :
    (orchestratorRun envFailAll 1).synthCalls = 2 ∧
    ¬ (orchestratorRun envFailAll 1).synthCalls ≤ 1 ∧
    (orchestratorRun envFailAll 1).outcome = .exhausted :=
  ⟨rfl, by decide, rfl⟩

/-- C1 witness: the amended bound applied at the concrete failing run. -/
theorem C1_wit : 1 ≤ 1 ∧ (orchestratorRun envFailAll 1).synthCalls ≤ 1 + 1 :=
  ⟨Nat.le_refl 1, C1_thm envFailAll 1 (Nat.le_refl 1)⟩

/-- C2 (confirmed): for any maxCycles = k with k at least 1, the run
performs at most k review cycles and ends in a terminal state (Passed,
Exhausted, or Fatal); the embedding is a total function, so the loop
cannot run forever. -/
theorem C2_thm (env : Env) (k : Nat) (hk : 1 ≤ k) :
    (orchestratorRun env k).reviewCalls ≤ k ∧
      ((orchestratorRun env k).outcome = .passed ∨
       (orchestratorRun env k).outcome = .exhausted ∨
       ∃ e, (orchestratorRun env k).outcome = .fatal e) := by
  constructor
  · unfold orchestratorRun
    cases htc : tcGeneratorRun env with
    | error e => simp
    | ok j =>
      cases hcr : coderRun j (env.synth 1) with
      | error e => dsimp only; rw [hcr]; simp
      | ok spec =>
        dsimp only
        rw [hcr]
        dsimp only
        have := reviewLoop_reviewCalls_le env k spec 1 0
        omega
  · cases hout : (orchestratorRun env k).outcome with
    | passed => exact Or.inl rfl
    | exhausted => exact Or.inr (Or.inl rfl)
    | fatal e => exact Or.inr (Or.inr ⟨e, rfl⟩)

/-- C2 witness: the bound applied at a concrete passing run. -/
theorem C2_wit :
    1 ≤ 1 ∧
      ((orchestratorRun envPass 1).reviewCalls ≤ 1 ∧
        ((orchestratorRun envPass 1).outcome = .passed ∨
         (orchestratorRun envPass 1).outcome = .exhausted ∨
         ∃ e, (orchestratorRun envPass 1).outcome = .fatal e)) :=
  ⟨Nat.le_refl 1, C2_thm envPass 1 (Nat.le_refl 1)⟩

/-- C3 (corrected): the final state is exactly one of Passed, Exhausted
or Fatal, but the caller can distinguish only Fatal: an uncaught
exception makes the interpreter exit with code 1, while both Passed and
Exhausted return normally with exit code 0 (the entry point never calls
sys.exit), not the claimed 0 / 1 / 2 scheme. -/
theorem C3_thm (env : Env) (k : Nat) :
    (∃ e, (orchestratorRun env k).outcome = .fatal e ∧
        exitCode (orchestratorRun env k) = 1) ∨
    (((orchestratorRun env k).outcome = .passed ∨
      (orchestratorRun env k).outcome = .exhausted) ∧
      exitCode (orchestratorRun env k) = 0) := by
  cases hout : (orchestratorRun env k).outcome with
  | passed => exact Or.inr ⟨Or.inl rfl, by simp [exitCode, hout]⟩
  | exhausted => exact Or.inr ⟨Or.inr rfl, by simp [exitCode, hout]⟩
  | fatal e => exact Or.inl ⟨e, rfl, by simp [exitCode, hout]⟩

/-- C3 counterexample: an exhausted run exits with code 0, the same
code as a passing run, not with the claimed distinct code 1. -/
theorem C3_cex :
    (orchestratorRun envFailAll 1).outcome = .exhausted ∧
    exitCode (orchestratorRun envFailAll 1) = 0 :=
  ⟨rfl, rfl⟩

/-- C4 (corrected): a parse failure of the source document, or a
deserialization failure with no stale case file present, makes the run
Fatal with zero synthesis and zero review calls; but a deserialization
failure is swallowed by the extractor, so with a stale case file the
run proceeds instead of terminating. -/
theorem C4_thm (env : Env) (k : Nat)
    (h : (∃ e, env.parse = .error e) ∨
          (env.llmCases = .error () ∧ env.staleJson = none)) :
    (∃ e, (orchestratorRun env k).outcome = .fatal e) ∧
      (orchestratorRun env k).synthCalls = 0 ∧
      (orchestratorRun env k).reviewCalls = 0 := by
  rcases h with ⟨e, he⟩ | ⟨hllm, hstale⟩
  · have htc : tcGeneratorRun env = .error e := by simp [tcGeneratorRun, he]
    refine ⟨⟨e, ?_⟩, ?_, ?_⟩ <;> simp [orchestratorRun, htc]
  · cases hp : env.parse with
    | error e =>
      have htc : tcGeneratorRun env = .error e := by simp [tcGeneratorRun, hp]
      refine ⟨⟨e, ?_⟩, ?_, ?_⟩ <;> simp [orchestratorRun, htc]
    | ok s =>
      have htc : tcGeneratorRun env = .ok none := by
        simp [tcGeneratorRun, hp, hllm, hstale]
      have hcr : coderRun none (env.synth 1) = .error "FileNotFoundError" := rfl
      refine ⟨⟨"FileNotFoundError", ?_⟩, ?_, ?_⟩ <;>
        simp [orchestratorRun, htc, hcr]

/-- C4 counterexample: when the backend content fails to deserialize
but a stale case file exists, the run is not Fatal at all — it proceeds
with the stale cases and performs one synthesis and one review. -/
theorem C4_cex :
    envStale.llmCases = .error () ∧
    (orchestratorRun envStale 1).outcome = .passed ∧
    (orchestratorRun envStale 1).synthCalls = 1 ∧
    (orchestratorRun envStale 1).reviewCalls = 1 :=
  ⟨rfl, rfl, rfl, rfl⟩

/-- C4 witness: the amended statement applied at a concrete run whose
XML parse raises. -/
theorem C4_wit :
    ((∃ e, envParseFail.parse = .error e) ∨
      (envParseFail.llmCases = .error () ∧ envParseFail.staleJson = none)) ∧
    ((∃ e, (orchestratorRun envParseFail 1).outcome = .fatal e) ∧
      (orchestratorRun envParseFail 1).synthCalls = 0 ∧
      (orchestratorRun envParseFail 1).reviewCalls = 0) :=
  ⟨Or.inl ⟨"ParseError", rfl⟩,
   C4_thm envParseFail 1 (Or.inl ⟨"ParseError", rfl⟩)⟩

/-- C5 (corrected): a non-zero process exit is encoded as passed=false
with the captured output verbatim as feedback and no exception; a
process-spawn failure, however, is not caught by the adapters — the
exception propagates out of the review operation. -/
theorem C5_thm (suffix out msg : String) (adv : Except String String) :
    review_code suffix (.exitNonzero out) adv = .ok (false, out) ∧
    review_code suffix (.spawnFailure msg) adv = .error msg := by
  by_cases hs : suffix = ".js" ∨ suffix = ".ts"
  · exact ⟨by unfold review_code; rw [if_pos hs]; rfl,
           by unfold review_code; rw [if_pos hs]; rfl⟩
  · exact ⟨by unfold review_code; rw [if_neg hs]; rfl,
           by unfold review_code; rw [if_neg hs]; rfl⟩

/-- C5 counterexample: a spawn failure (backend executable missing)
raises out of the review operation instead of being encoded as a failed
run. -/
theorem C5_cex :
    review_code ".js" (.spawnFailure "npx: command not found") (.ok "") =
      .error "npx: command not found" := rfl

/-- C6 (confirmed): the passed field of a review depends only on the
adapter's exit status — replacing the advisory oracle never changes it —
and when the advisory call raises, the error is captured as the
annotated advisory text and appended to the feedback of a still-passing
result, with no exception escaping. -/
theorem C6_thm (out reason suffix : String) (a : AdapterOutcome)
    (adv adv' : Except String String) :
    (review_code suffix a adv).map Prod.fst =
        (review_code suffix a adv').map Prod.fst ∧
    review_code ".js" (.exitZero out) (.error reason) =
      .ok (true, "All Playwright tests passed successfully."
        ++ "\n\n[Static Review]\n"
        ++ ("[Static review failed: " ++ reason ++ "]")) := by
  constructor
  · rw [reviewCode_fst, reviewCode_fst]
  · have key : review_code ".js" (.exitZero out) (.error reason) =
        .ok (true,
          if ("[Static review failed: " ++ reason ++ "]") ≠ "" then
            "All Playwright tests passed successfully."
              ++ "\n\n[Static Review]\n"
              ++ ("[Static review failed: " ++ reason ++ "]")
          else "All Playwright tests passed successfully.") := rfl
    rw [key, if_pos (staticNotice_ne reason)]

/-- C7 (corrected): no adapter invocation is bounded by an execution
timeout — neither subprocess call passes a timeout argument, so a hung
backend blocks forever and no timeout-failure feedback path exists. -/
theorem C7_thm (testFilePath workingDir pythonExe : String) :
    (playwrightCall testFilePath workingDir).timeout = none ∧
    (pytestCall pythonExe workingDir).timeout = none :=
  ⟨rfl, rfl⟩

/-- C7 counterexample: the Playwright invocation used by the pipeline
carries no timeout, refuting the claim that every adapter invocation is
bounded by one. -/
theorem C7_cex :
    (playwrightCall "artifacts/generated_tests/test_generated.spec.js"
      "artifacts/generated_tests").timeout = none := rfl

/-- C8 (confirmed): the placeholder sanitization transform is
idempotent — applying it twice yields the same text as applying it
once, for every input string. -/
theorem C8_thm (s : String) :
    sanitize_code (sanitize_code s) = sanitize_code s :=
  congrArg String.mk (sub_idem s.data)

/-- C9 (corrected): if the placeholder pattern matches nowhere inside
the preceding text (even allowing a match to extend past it) and
nowhere in the following text, then sanitization rewrites the
placeholder occurrence to the stub text and leaves every other
character unchanged.  Without those side conditions the claim fails:
other occurrences are rewritten too (see the counterexample). -/
theorem C9_thm (pre post : List Char)
    (h1 : ∀ i, i < pre.length →
        tryMatch (pre.drop i ++ occPlaceholder ++ post) = none)
    (h2 : ∀ i, i < post.length → tryMatch (post.drop i) = none) :
    sanitize_code (String.mk (pre ++ occPlaceholder ++ post)) =
      String.mk (pre ++ repl ++ post) := by
  have hpost : subPlaceholder post = post := clean_fix (clean_of_all_drops h2)
  have hocc : subPlaceholder (occPlaceholder ++ post) = repl ++ post := by
    rw [sub_occ_append, hpost]
  have hpre : subPlaceholder (pre ++ (occPlaceholder ++ post)) =
      pre ++ subPlaceholder (occPlaceholder ++ post) := by
    apply sub_append_of_nomatch
    intro i hi
    have := h1 i hi
    rwa [List.append_assoc] at this
  show String.mk (subPlaceholder ((pre ++ occPlaceholder) ++ post)) = _
  rw [List.append_assoc, hpre, hocc, ← List.append_assoc]

/-- C9 counterexample: when the rest of the text contains another
placeholder occurrence, sanitization rewrites it as well, so the text
does not remain otherwise unchanged. -/
theorem C9_cex :
    sanitize_code (String.mk (preBad ++ occPlaceholder ++ [])) ≠
      String.mk (preBad ++ repl ++ []) := by decide

/-- C9 witness: the amended statement applied at a concrete benign
context around the placeholder occurrence. -/
theorem C9_wit :
    (∀ i, i < preW.length →
        tryMatch (preW.drop i ++ occPlaceholder ++ postW) = none) ∧
    (∀ i, i < postW.length → tryMatch (postW.drop i) = none) ∧
    sanitize_code (String.mk (preW ++ occPlaceholder ++ postW)) =
      String.mk (preW ++ repl ++ postW) :=
  ⟨by decide, by decide, C9_thm preW postW (by decide) (by decide)⟩

/-- C10 (confirmed): when no prior artifact file exists, improve_code
does not raise — it uses the empty string as the previous code in the
revision prompt and writes the sanitized backend output as a complete
replacement to the canonical artifact path. -/
theorem C10_thm (feedback llmOut : String) :
    improve_code none feedback llmOut =
      .ok ⟨improvePrompt feedback "", sanitize_code llmOut⟩ := rfl
